import Mathlib

/-!
Verification of the `rift-utils` configuration engine: a shallow embedding of
the GRUB kernel-parameter merge algorithm (`configure/commands/configure_grub.py`,
`configure/commands/configure_memory.py`) and of the workflow execution engine
(`configure/configure.py`), together with theorems settling the specification
claims about them.

Files are modelled as lists of lines (`List String`); the filesystem state
relevant to the merge is the main GRUB file plus a directory of override
fragments.  Python strings are Lean `String`s; Python `str.split()` (whitespace
split), `'x' in s` (substring test), `s.split('=')[0]`, `s.startswith(p)` and
`sorted(list(set(xs)))` are given explicit executable models below.
-/

/-! ## String primitives mirroring the Python operations -/

/-- Lexicographic strict comparison of char lists by code point,
mirroring Python string `<`. -/
def charsLt : List Char → List Char → Bool
  | [], [] => false
  | [], _ :: _ => true
  | _ :: _, [] => false
  | a :: as, b :: bs =>
    if a.toNat < b.toNat then true
    else if b.toNat < a.toNat then false
    else charsLt as bs

/-- `strLeB a b` is Python `a <= b` on strings (code-point lexicographic). -/
def strLeB (a b : String) : Bool := !(charsLt b.data a.data)

/-- `pfxOf n h` is `List.isPrefixOf` specialised to chars:
`h` starts with `n`. -/
def pfxOf : List Char → List Char → Bool
  | [], _ => true
  | _ :: _, [] => false
  | a :: as, b :: bs => a == b && pfxOf as bs

/-- `containsSub n h` is Python `n in h` on char lists:
`n` occurs as a contiguous substring of `h`. -/
def containsSub : List Char → List Char → Bool
  | n, [] => n.isEmpty
  | n, h :: t => pfxOf n (h :: t) || containsSub n t

/-- Python `needle in hay` for strings. -/
def substrB (needle hay : String) : Bool := containsSub needle.data hay.data

/-- Python `s.startswith(p)`. -/
def startsWithB (p s : String) : Bool := pfxOf p.data s.data

/-- Python `opt.split('=')[0]`: the text before the first `'='`
(the whole string when there is no `'='`). -/
def keyOf (opt : String) : String := String.mk (opt.data.takeWhile (fun c => c != '='))

/-- Whitespace characters recognised by Python `str.split()`. -/
def isWS (c : Char) : Bool := c == ' ' || c == '\t' || c == '\n' || c == '\r'

/-- Accumulator-style splitter behind `wsSplit`; `cur` holds the chars of the
token currently being read, in reverse. -/
def wsSplitAux : List Char → List Char → List (List Char)
  | [], [] => []
  | [], cur => [cur.reverse]
  | c :: rest, cur =>
    if isWS c then
      match cur with
      | [] => wsSplitAux rest []
      | _ => cur.reverse :: wsSplitAux rest []
    else wsSplitAux rest (c :: cur)

/-- Python `s.split()` on char lists: split on runs of whitespace,
discarding empty pieces. -/
def wsSplit (cs : List Char) : List (List Char) := wsSplitAux cs []

/-- Python `s.split()` for strings. -/
def splitWS (s : String) : List String := (wsSplit s.data).map String.mk

/-- Python `' '.join(xs)`. -/
def spaceJoin (xs : List String) : String := String.intercalate " " xs

/-- Python `sorted(list(set(xs)))`: deduplicate, then sort by code-point
lexicographic order.  Deduplication keeps first occurrences; the subsequent
sort makes the intermediate order irrelevant, as in the Python original. -/
def dedupSort (xs : List String) : List String :=
  List.insertionSort (fun a b => strLeB a b = true) xs.dedup

/-! ## `read_options_from_file` / `get_existing_grub_parameters`
(`configure_grub.py` lines 20-58) -/

/-- The capture of the regex fragment `"([^"]*)"` applied at the current
position: the chars up to the next `'"'`, or `none` when no closing quote
follows. -/
def takeUntilQuote : List Char → Option (List Char)
  | [] => none
  | c :: rest =>
    if c == '"' then some []
    else (takeUntilQuote rest).map (fun v => c :: v)

/-- `re.search(pat + r'="([^"]*)"', line)` capture: scan left to right for an
occurrence of `pat ++ "=\""` followed (eventually) by a closing quote and
return the captured value of the leftmost such match. -/
def captureAfter (pat : List Char) : List Char → Option (List Char)
  | [] => none
  | c :: t =>
    if pfxOf pat (c :: t) then
      match takeUntilQuote ((c :: t).drop pat.length) with
      | some v => some v
      | none => captureAfter pat t
    else captureAfter pat t

/-- One line of `read_options_from_file`: if the line matches
`param_name="([^"]*)"`, the whitespace-split tokens of the captured value,
else nothing.  (The Python `if param_name in line` pre-check cannot change
the result: when the full pattern is absent the regex search fails anyway.) -/
def readOptionsFromLine (param line : String) : List String :=
  match captureAfter (param.data ++ ['=', '"']) line.data with
  | some v => (wsSplit v).map String.mk
  | none => []

/-- `read_options_from_file`: accumulate the tokens of every matching line. -/
def readOptionsFromFile (lines : List String) (param : String) : List String :=
  lines.flatMap (readOptionsFromLine param)

/-- A fragment directory entry: filename and file lines. -/
abbrev Fragment := String × List String

/-- Python `f.endswith(".cfg")`. -/
def isCfgName (name : String) : Bool :=
  pfxOf ".cfg".data.reverse name.data.reverse

/-- `sorted(os.listdir(...))`: directory entries in lexicographic filename
order. -/
def sortFragments (frags : List Fragment) : List Fragment :=
  List.insertionSort (fun a b => strLeB a.1 b.1 = true) frags

/-- The pre-deduplication accumulated token list of
`get_existing_grub_parameters`: tokens of the main file (empty when the file
is missing), then the tokens of every `.cfg` fragment in sorted filename
order. -/
def accumulatedGrubTokens (main : Option (List String)) (frags : List Fragment)
    (param : String) : List String :=
  (match main with
   | some lines => readOptionsFromFile lines param
   | none => []) ++
  ((sortFragments frags).filter (fun f => isCfgName f.1)).flatMap
    (fun f => readOptionsFromFile f.2 param)

/-- `get_existing_grub_parameters`: the accumulated tokens, deduplicated via
set union and sorted (`sorted(list(set(all_options)))`). -/
def getExistingGrubParameters (main : Option (List String)) (frags : List Fragment)
    (param : String) : List String :=
  dedupSort (accumulatedGrubTokens main frags param)

/-! ## `AddGrubVirtualizationOptionsCmd.execute` merge
(`configure_grub.py` lines 191-238) -/

/-- The fixed blacklist token appended alongside the vfio ids. -/
def blacklistTok : String := "modprobe.blacklist=nouveau,nvidia,nvidiafb,snd_hda_intel"

/-- `new_options` of `AddGrubVirtualizationOptionsCmd.execute`
(lines 199-213): the six plain options, then — when the joined PCI-id string
is nonempty — the vfio-ids and blacklist tokens. -/
def newOptions (iommuType vfioIdsStr : String) : List String :=
  ["iommu=pt", "pci=realloc", "pcie_aspm=off", iommuType, "nomodeset", "video=efifb:off"] ++
  (if vfioIdsStr == "" then [] else ["vfio-pci.ids=" ++ vfioIdsStr, blacklistTok])

/-- One iteration of the additive loop (lines 223-226): append `opt` unless
some existing token contains `opt.split('=')[0]` as a substring. -/
def addOption (acc : List String) (opt : String) : List String :=
  if acc.any (fun e => substrB (keyOf opt) e) then acc else acc ++ [opt]

/-- The full additive loop. -/
def mergeAdditive (baseline opts : List String) : List String :=
  opts.foldl addOption baseline

/-- The exclusive-key step (lines 228-234): drop every token starting with
`vfio-pci.ids=` or `modprobe.blacklist=`, then append the freshly computed
pair when the id string is nonempty. -/
def applyExclusive (opts : List String) (vfioIdsStr : String) : List String :=
  (((opts.filter (fun o => !startsWithB "vfio-pci.ids=" o)).filter
      (fun o => !startsWithB "modprobe.blacklist=" o)) : List String) ++
  (if vfioIdsStr == "" then [] else ["vfio-pci.ids=" ++ vfioIdsStr, blacklistTok])

/-- The complete token-list computation of
`AddGrubVirtualizationOptionsCmd.execute` for a list-valued
`GRUB_CMDLINE_LINUX_DEFAULT`. -/
def addVirtOptions (baseline : List String) (iommuType : String)
    (pciIds : List String) : List String :=
  let vfioIdsStr := String.intercalate "," pciIds
  applyExclusive (mergeAdditive baseline (newOptions iommuType vfioIdsStr)) vfioIdsStr

/-! ## `add_hugepages_to_grub_options` (`configure_memory.py` lines 69-92) -/

/-- The prefix tuple of the hugepage removal filter
(`opt.startswith(('default_hugepagesz', 'hugepagesz', 'hugepages'))`). -/
def hugepagePfxs : List String := ["default_hugepagesz", "hugepagesz", "hugepages"]

/-- A token removed by the hugepage filter. -/
def isHugepageTok (o : String) : Bool := hugepagePfxs.any (fun p => startsWithB p o)

/-- `add_hugepages_to_grub_options` on the two token lists
(`GRUB_CMDLINE_LINUX`, `GRUB_CMDLINE_LINUX_DEFAULT`): remove hugepage-prefixed
tokens from both, append the three fresh hugepage tokens to the default list,
and, only when 5-level paging is enabled, remove `la57` and append it anew.
Returns (linux, default). -/
def addHugepagesToGrubOptions (cmdlineLinux cmdlineDefault : List String)
    (numHugepages : Nat) (enable5Level : Bool) : List String × List String :=
  let lin := cmdlineLinux.filter (fun o => !isHugepageTok o)
  let dflt := cmdlineDefault.filter (fun o => !isHugepageTok o)
  let dflt := dflt ++
    ["default_hugepagesz=1G", "hugepagesz=1G", "hugepages=" ++ toString numHugepages]
  let dflt := if enable5Level then (dflt.filter (fun o => o != "la57")) ++ ["la57"] else dflt
  (lin, dflt)

/-- The fresh hugepage tokens appended by `add_hugepages_to_grub_options`. -/
def freshHugepageToks (n : Nat) : List String :=
  ["default_hugepagesz=1G", "hugepagesz=1G", "hugepages=" ++ toString n]

/-! ## `create_grub_override` / `CreateGrubOverrideCmd`
(`configure_grub.py` lines 60-114 and 240-265) -/

/-- Assoc-list update with Python-dict semantics: overwrite in place when the
key exists, append otherwise. -/
def assocSet {β : Type} (d : List (String × β)) (k : String) (v : β) : List (String × β) :=
  if d.any (fun kv => kv.1 == k) then
    d.map (fun kv => if kv.1 == k then (k, v) else kv)
  else d ++ [(k, v)]

/-- Assoc-list lookup (first binding). -/
def assocGet {β : Type} (d : List (String × β)) (k : String) : Option β :=
  (d.find? (fun kv => kv.1 == k)).map (fun kv => kv.2)

/-- A character matched by `[A-Z_]`. -/
def isKeyChar (c : Char) : Bool := (65 ≤ c.toNat && c.toNat ≤ 90) || c == '_'

/-- One attempt of `re.search(r'([A-Z_]+)="([^"]*)"', line)` at the current
position: a nonempty maximal `[A-Z_]` run, then `="`, then the capture up to
the closing quote. -/
def tryKVHere (cs : List Char) : Option (String × String) :=
  let run := cs.takeWhile isKeyChar
  if run.isEmpty then none
  else
    match cs.drop run.length with
    | '=' :: '"' :: rest => (takeUntilQuote rest).map (fun v => (String.mk run, String.mk v))
    | _ => none

/-- Leftmost match of `([A-Z_]+)="([^"]*)"` in a line. -/
def scanKV : List Char → Option (String × String)
  | [] => none
  | c :: t =>
    match tryKVHere (c :: t) with
    | some kv => some kv
    | none => scanKV t

/-- The `existing_options` dict built by `create_grub_override` from the
current override file: one regex match per line, later lines overriding
earlier bindings of the same key. -/
def parseOverrideLines (lines : List String) : List (String × String) :=
  lines.foldl
    (fun d line =>
      match scanKV line.data with
      | some kv => assocSet d kv.1 kv.2
      | none => d)
    []

/-- Python `dict ==` for string-valued dicts with unique keys:
identical key sets with identical values, order-insensitive. -/
def dictEqB (a b : List (String × String)) : Bool :=
  a.all (fun kv => assocGet b kv.1 == some kv.2) &&
  b.all (fun kv => assocGet a kv.1 == some kv.2)

/-- The lines `KEY="value"` that `create_grub_override` writes
(`grub_d_content` at line 99, one line per option). -/
def overrideLines (opts : List (String × String)) : List String :=
  opts.map (fun kv => kv.1 ++ "=\"" ++ kv.2 ++ "\"")

/-- The full byte content of the managed override fragment: the `KEY="value"`
lines joined with a newline, no trailing newline. -/
def serializeOverride (opts : List (String × String)) : String :=
  String.intercalate "\n" (overrideLines opts)

/-- `create_grub_override` return value: `false` when the existing file
parses to a dict equal to the requested options (file left untouched, line
84), otherwise the outcome of the write attempt (`true` on success, `false`
on an I/O error, lines 107-114).  `existing = none` models a missing file,
`writeOk = false` a write that raises `IOError`. -/
def createGrubOverride (existing : Option (List String))
    (opts : List (String × String)) (writeOk : Bool) : Bool :=
  match existing with
  | some lines => if dictEqB (parseOverrideLines lines) opts then false else writeOk
  | none => writeOk

/-- `CreateGrubOverrideCmd.execute` (lines 249-265): fail when either GRUB
key is missing from the environment; otherwise run the helper, and run
`update-grub` exactly when the helper returned `true`; `updateGrubOk = false`
models `update-grub` raising (caught by the `except`, yielding `false`).
Returns (execute result, whether update-grub was invoked). -/
def createOverrideCmdResult (hasKeys : Bool) (existing : Option (List String))
    (opts : List (String × String)) (writeOk updateGrubOk : Bool) : Bool × Bool :=
  if !hasKeys then (false, false)
  else
    let wrote := createGrubOverride existing opts writeOk
    if wrote then (updateGrubOk, true) else (true, false)

/-! ## Workflow execution engine (`configure.py` lines 46-103, 226-281) -/

/-- An environment value: commands store strings or token lists. -/
inductive EnvVal
  | vStr (s : String)
  | vList (l : List String)
deriving DecidableEq

/-- The shared mutable environment dictionary. -/
abbrev Env := List (String × EnvVal)

/-- Terminal outcome of `Workflow.execute`: `completed` is Python `True`,
`failed i` is `False` after step `i` (1-based, as printed in the step
banner), `cancelled` is `None`. -/
inductive WfOutcome
  | completed
  | failed (idx : Nat)
  | cancelled
deriving DecidableEq

/-- A workflow step: `run env` is `none` when `execute` raises, otherwise
`some (result, updated env)`. -/
structure WfStep where
  run : Env → Option (Bool × Env)

/-- The step loop of `Workflow.execute` (lines 79-103): invoke steps in
order starting at 1-based index `i`, stopping at the first `false` or raise.
Returns the outcome, the 1-based indices of the steps actually invoked, and
the final environment. -/
def runSteps : Nat → Env → List WfStep → WfOutcome × List Nat × Env
  | _, env, [] => (.completed, [], env)
  | i, env, s :: rest =>
    match s.run env with
    | some (true, env') =>
      let r := runSteps (i + 1) env' rest
      (r.1, i :: r.2.1, r.2.2)
    | some (false, env') => (.failed i, [i], env')
    | none => (.failed i, [i], env)

/-- `Workflow.execute` (lines 59-103): a declined confirmation prompt
cancels before any step runs; otherwise the shared environment is rebound to
a fresh empty dict (line 76) and the steps run in order.  The caller's
`env` argument is never consulted, exactly as in the code. -/
def wfExecute (confirm : Bool) (steps : List WfStep) (env : Env) :
    WfOutcome × List Nat × Env :=
  if confirm then runSteps 1 [] steps else (.cancelled, [], [])

/-- Process exit code of `execute_workflow` (lines 262-275): `None`
(cancelled) exits 0; `True` proceeds to the final report, exiting cleanly;
`False` and a raised exception exit 1. -/
def workflowExitCode : WfOutcome → Nat
  | .cancelled => 0
  | .completed => 0
  | .failed _ => 1

/-- Abstract behaviour of a step: succeed, return `false`, or raise. -/
inductive StepRes
  | ok
  | fail
  | exc
deriving DecidableEq

/-- A step with a fixed behaviour, leaving the environment unchanged. -/
def constStep : StepRes → WfStep
  | .ok => ⟨fun e => some (true, e)⟩
  | .fail => ⟨fun e => some (false, e)⟩
  | .exc => ⟨fun _ => none⟩

/-! ## The four GRUB commands as workflow steps, and the merge pipeline -/

/-- Filesystem state read by the merge: `/etc/default/grub` (`none` when
absent) and the `/etc/default/grub.d` fragment directory. -/
structure GrubFs where
  main : Option (List String)
  frags : List Fragment

/-- `ReadGrubCmd.execute` (lines 124-129). -/
def readGrubStep (fs : GrubFs) : WfStep :=
  ⟨fun e => some (true,
    assocSet
      (assocSet e "GRUB_CMDLINE_LINUX_DEFAULT"
        (.vList (getExistingGrubParameters fs.main fs.frags "GRUB_CMDLINE_LINUX_DEFAULT")))
      "GRUB_CMDLINE_LINUX"
      (.vList (getExistingGrubParameters fs.main fs.frags "GRUB_CMDLINE_LINUX")))⟩

/-- The iommu flag chosen by `GetIommuTypeCmd.execute` (lines 140-146) from
the `/proc/cpuinfo` content. -/
def iommuTypeFor (cpuinfo : String) : String :=
  if substrB "AMD" cpuinfo then "amd_iommu=on" else "intel_iommu=on"

/-- `GetIommuTypeCmd.execute`. -/
def getIommuTypeStep (cpuinfo : String) : WfStep :=
  ⟨fun e => some (true, assocSet e "IOMMU_TYPE" (.vStr (iommuTypeFor cpuinfo)))⟩

/-- `GetGpuPciIdsCmd.execute` (lines 157-179), parametrised by the result of
the external `lspci` scan: `hasNvidia` is whether any `NVIDIA Corporation`
line was present (else the command returns `false`), `foundIds` the
extracted `vendor:device` ids, stored sorted and deduplicated. -/
def getGpuPciIdsStep (hasNvidia : Bool) (foundIds : List String) : WfStep :=
  ⟨fun e =>
    if hasNvidia then some (true, assocSet e "GPU_PCI_IDS" (.vList (dedupSort foundIds)))
    else some (false, e)⟩

/-- The list-or-string normalisation of lines 217-221
(`grub_cmdline.split() if grub_cmdline else []`). -/
def tokensOfEnvVal : EnvVal → List String
  | .vList l => l
  | .vStr s => splitWS s

/-- `AddGrubVirtualizationOptionsCmd.execute` (lines 191-238): fail when a
required key is missing, else store the space-joined merged token list. -/
def addVirtStep : WfStep :=
  ⟨fun e =>
    if (assocGet e "IOMMU_TYPE").isNone || (assocGet e "GPU_PCI_IDS").isNone ||
       (assocGet e "GRUB_CMDLINE_LINUX_DEFAULT").isNone then
      some (false, e)
    else
      match assocGet e "IOMMU_TYPE", assocGet e "GPU_PCI_IDS",
            assocGet e "GRUB_CMDLINE_LINUX_DEFAULT" with
      | some (.vStr iommu), some (.vList pciIds), some cmdline =>
        some (true, assocSet e "GRUB_CMDLINE_LINUX_DEFAULT"
          (.vStr (spaceJoin (addVirtOptions (tokensOfEnvVal cmdline) iommu pciIds))))
      | _, _, _ => none⟩

/-- The workflow `[ReadGrub, GetIommuType, GetGpuPciIds,
AddGrubVirtualizationOptions]`. -/
def virtWorkflowSteps (fs : GrubFs) (cpuinfo : String) (hasNvidia : Bool)
    (foundIds : List String) : List WfStep :=
  [readGrubStep fs, getIommuTypeStep cpuinfo, getGpuPciIdsStep hasNvidia foundIds, addVirtStep]

/-- Overwrite-or-create the managed fragment in the directory listing. -/
def fragSet (frags : List Fragment) (name : String) (lines : List String) : List Fragment :=
  if frags.any (fun f => f.1 == name) then
    frags.map (fun f => if f.1 == name then (name, lines) else f)
  else frags ++ [(name, lines)]

/-- The single-quote character (code point 39). -/
def squoteChar : Char := Char.ofNat 39

/-- One character of a Python string repr, escaped for quote character `q`:
backslash, the quote itself, and the common control characters are escaped;
other (printable) characters pass through — the subset that occurs in GRUB
token data. -/
def pyEscapeChar (q : Char) (c : Char) : List Char :=
  if c = '\\' then ['\\', '\\']
  else if c = q then ['\\', q]
  else if c = '\n' then ['\\', 'n']
  else if c = '\r' then ['\\', 'r']
  else if c = '\t' then ['\\', 't']
  else [c]

/-- Python `repr(s)` for a printable string: single-quoted, unless the
string contains a single quote and no double quote, in which case it is
double-quoted; the content is escaped for the chosen quote. -/
def pyReprStr (s : String) : String :=
  let useDouble := s.data.contains squoteChar && !(s.data.contains '"')
  let q := if useDouble then '"' else squoteChar
  String.mk (q :: (s.data.flatMap (pyEscapeChar q) ++ [q]))

/-- Python `str(xs)` for a list of strings: bracketed, comma-space
separated, each element rendered with `repr`. -/
def pyStrOfList (xs : List String) : String :=
  "[" ++ String.intercalate ", " (xs.map pyReprStr) ++ "]"

/-- How the f-string `f'{key}="{grub_options[key]}"'` at
`configure_grub.py` line 99 renders an environment value: a `str` passes
through unchanged, a Python list is rendered via `str(list)`. -/
def pyStrOfEnvVal : EnvVal → String
  | .vStr s => s
  | .vList l => pyStrOfList l

/-- The options dict that reaches `create_grub_override` after one run of
the workflow `[ReadGrub, GetIommuType, GetGpuPciIds,
AddGrubVirtualizationOptions]`: the final environment is read back at the
two GRUB keys (`CreateGrubOverrideCmd.execute`, lines 254-257) and each
value is rendered by the f-string at line 99 — `GRUB_CMDLINE_LINUX_DEFAULT`
is the string space-joined at line 236, but `GRUB_CMDLINE_LINUX` is still
the Python list stored by `ReadGrubCmd` (line 126, reassigned by no later
command), so it is rendered through `str(list)`.  The `.getD` default is
unreachable: `ReadGrubCmd` always sets both keys. -/
def pipelineOverrideOpts (fs : GrubFs) (cpuinfo : String) (pciIds : List String) :
    List (String × String) :=
  let e := (wfExecute true (virtWorkflowSteps fs cpuinfo true pciIds) []).2.2
  [("GRUB_CMDLINE_LINUX_DEFAULT",
      pyStrOfEnvVal ((assocGet e "GRUB_CMDLINE_LINUX_DEFAULT").getD (.vStr ""))),
   ("GRUB_CMDLINE_LINUX",
      pyStrOfEnvVal ((assocGet e "GRUB_CMDLINE_LINUX").getD (.vStr "")))]

/-- One run of the merge pipeline: baseline read, additive contribution and
exclusive-key replacement via the composed command steps, then
serialization of the resulting environment values into the managed
`99-cloudrift.cfg` fragment, which `create_grub_override` fully rewrites.
Returns the fragment byte content and the updated filesystem. -/
def mergePipelineRun (fs : GrubFs) (cpuinfo : String) (pciIds : List String) :
    String × GrubFs :=
  let opts := pipelineOverrideOpts fs cpuinfo pciIds
  (serializeOverride opts, ⟨fs.main, fragSet fs.frags "99-cloudrift.cfg" (overrideLines opts)⟩)

/-- The empty initial GRUB state: an empty main file and no fragments. -/
def emptyGrubFs : GrubFs := ⟨some [], []⟩

/-- The `GRUB_CMDLINE_LINUX_DEFAULT` baseline read by `ReadGrubCmd`. -/
def virtBaseline (fs : GrubFs) : List String :=
  getExistingGrubParameters fs.main fs.frags "GRUB_CMDLINE_LINUX_DEFAULT"

/-- The merged token list of `AddGrubVirtualizationOptionsCmd` in the AMD,
single-GPU (`10de:2684`) scenario. -/
def virtMergedAmd (fs : GrubFs) : List String :=
  addVirtOptions (virtBaseline fs) "amd_iommu=on" ["10de:2684"]

/-! ## Workflow-definition loader

Modelled from the spec: the repository source under verification contains no
WorkflowLoader implementation (workflows are built-in Python classes); §4.4
of the spec describes its contract, which the following definitions embed:
a YAML-like document, a command registry of known identifiers, and
`parse(source) -> Workflow` failing with a config error on each malformed
shape or unresolved reference, before any command is invoked (the model
never executes a command; parsing is a pure function). -/

/-- A YAML-like value: string scalar, sequence, mapping, or any other
scalar. -/
inductive YVal
  | ystr (s : String)
  | yseq (l : List YVal)
  | ymap (m : List (String × YVal))
  | yother

/-- Modelled from the spec: the config errors of the WorkflowLoader contract
(§4.4/§7); `unknownCommand` names the unresolved identifier. -/
inductive ConfigError
  | rootNotMapping
  | missingName
  | missingCommands
  | commandsNotSequence
  | badCommandEntry
  | unknownCommand (id : String)
deriving DecidableEq

/-- Modelled from the spec: a parsed workflow — its name and, per step, the
resolved command identifier with the optional per-step environment
overlay. -/
structure LoadedWorkflow where
  name : String
  steps : List (String × List (String × YVal))

/-- Modelled from the spec: one command entry — either a bare identifier
string or a mapping with a `name` field (and optional `environment`
overlay); the identifier must resolve against the registry. -/
def parseEntry (reg : List String) : YVal → Except ConfigError (String × List (String × YVal))
  | .ystr id => if reg.contains id then .ok (id, []) else .error (.unknownCommand id)
  | .ymap m =>
    match assocGet m "name" with
    | some (.ystr id) =>
      let overlay :=
        match assocGet m "environment" with
        | some (.ymap ov) => ov
        | _ => []
      if reg.contains id then .ok (id, overlay) else .error (.unknownCommand id)
    | _ => .error .badCommandEntry
  | _ => .error .badCommandEntry

/-- Modelled from the spec: resolve all command entries left to right,
failing fast at the first malformed entry or unresolved reference. -/
def parseEntries (reg : List String) : List YVal →
    Except ConfigError (List (String × List (String × YVal)))
  | [] => .ok []
  | e :: rest =>
    match parseEntry reg e with
    | .error err => .error err
    | .ok c =>
      match parseEntries reg rest with
      | .error err => .error err
      | .ok cs => .ok (c :: cs)

/-- Modelled from the spec: `parse(source) -> Workflow`, failing when the
root is not a mapping, `name` or `commands` is missing, `commands` is not a
sequence, an entry is malformed, or a reference does not resolve; entry
errors surface at parse time via the fail-fast traversal. -/
def parseWorkflow (reg : List String) : YVal → Except ConfigError LoadedWorkflow
  | .ymap m =>
    match assocGet m "name" with
    | some (.ystr nm) =>
      match assocGet m "commands" with
      | none => .error .missingCommands
      | some (.yseq entries) =>
        match parseEntries reg entries with
        | .error err => .error err
        | .ok cs => .ok ⟨nm, cs⟩
      | some _ => .error .commandsNotSequence
    | _ => .error .missingName
  | _ => .error .rootNotMapping

/-! ## Order facts for the code-point comparison and `dedupSort` -/

theorem charsLt_irrefl : ∀ l : List Char, charsLt l l = false
  | [] => rfl
  | c :: t => by simp [charsLt, charsLt_irrefl t]

theorem charsLt_asymm : ∀ a b : List Char, charsLt a b = true → charsLt b a = false
  | [], [] => by simp [charsLt]
  | [], _ :: _ => by simp [charsLt]
  | _ :: _, [] => by simp [charsLt]
  | a :: as, b :: bs => by
    simp only [charsLt]
    by_cases h1 : a.toNat < b.toNat
    · simp [h1, Nat.lt_asymm h1]
    · by_cases h2 : b.toNat < a.toNat
      · simp [h1, h2]
      · simp [h1, h2]
        exact charsLt_asymm as bs

theorem charsLt_trans : ∀ a b c : List Char,
    charsLt a b = true → charsLt b c = true → charsLt a c = true
  | [], [], _ => by simp [charsLt]
  | [], _ :: _, [] => by simp [charsLt]
  | [], _ :: _, _ :: _ => by simp [charsLt]
  | _ :: _, [], _ => by simp [charsLt]
  | _ :: _, _ :: _, [] => by simp [charsLt]
  | a :: as, b :: bs, c :: cs => by
    simp only [charsLt]
    by_cases h1 : a.toNat < b.toNat
    · by_cases h2 : b.toNat < c.toNat
      · simp [h1, h2, Nat.lt_trans h1 h2]
      · by_cases h3 : c.toNat < b.toNat
        · simp [h1, h2, h3]
        · have hac : a.toNat < c.toNat := by omega
          simp [h1, h2, h3, hac]
    · by_cases h3 : b.toNat < a.toNat
      · simp [h1, h3]
      · by_cases h2 : b.toNat < c.toNat
        · have hac : a.toNat < c.toNat := by omega
          simp [h1, h2, h3, hac]
        · by_cases h4 : c.toNat < b.toNat
          · simp [h1, h2, h3, h4]
          · have hac1 : ¬ a.toNat < c.toNat := by omega
            have hac2 : ¬ c.toNat < a.toNat := by omega
            simp [h1, h2, h3, h4, hac1, hac2]
            exact charsLt_trans as bs cs

theorem charsLt_conn : ∀ a b : List Char,
    charsLt a b = false → charsLt b a = false → a = b
  | [], [] => by intro _ _; rfl
  | [], _ :: _ => by simp [charsLt]
  | _ :: _, [] => by intro _ h; simp [charsLt] at h
  | a :: as, b :: bs => by
    simp only [charsLt]
    by_cases h1 : a.toNat < b.toNat
    · simp [h1]
    · by_cases h2 : b.toNat < a.toNat
      · simp [h1, h2]
      · simp [h1, h2]
        intro ha hb
        have hnat : a.toNat = b.toNat := by omega
        have hab : a = b := Char.eq_of_val_eq (UInt32.toNat.inj hnat)
        exact ⟨hab, charsLt_conn as bs ha hb⟩

theorem strLeB_total (a b : String) : strLeB a b = true ∨ strLeB b a = true := by
  unfold strLeB
  by_cases h : charsLt b.data a.data = true
  · right
    simp [charsLt_asymm _ _ h]
  · left
    simp [Bool.not_eq_true] at h
    simp [h]

theorem strLeB_trans (a b c : String) :
    strLeB a b = true → strLeB b c = true → strLeB a c = true := by
  unfold strLeB
  intro h1 h2
  simp only [Bool.not_eq_true'] at h1 h2 ⊢
  by_cases hbc : charsLt b.data c.data = true
  · by_cases hca : charsLt c.data a.data = true
    · have hba := charsLt_trans _ _ _ hbc hca
      rw [h1] at hba
      cases hba
    · simpa using hca
  · have heq : b.data = c.data := charsLt_conn _ _ (by simpa using hbc) h2
    rw [← heq]
    exact h1

instance : IsTotal String (fun a b => strLeB a b = true) := ⟨strLeB_total⟩

instance : IsTrans String (fun a b => strLeB a b = true) := ⟨fun a b c => strLeB_trans a b c⟩

/-- `dedupSort` returns a sorted list. -/
theorem dedupSort_sorted (xs : List String) :
    List.Sorted (fun a b => strLeB a b = true) (dedupSort xs) :=
  List.sorted_insertionSort _ _

/-- `dedupSort` returns a duplicate-free list. -/
theorem dedupSort_nodup (xs : List String) : (dedupSort xs).Nodup :=
  ((List.perm_insertionSort _ _).nodup_iff).mpr (List.nodup_dedup xs)

/-- `dedupSort` keeps exactly the elements of its input. -/
theorem mem_dedupSort {x : String} {xs : List String} : x ∈ dedupSort xs ↔ x ∈ xs :=
  ((List.perm_insertionSort _ _).mem_iff).trans List.mem_dedup

/-! ## Prefix and substring facts -/

theorem pfxOf_refl_append : ∀ a s : List Char, pfxOf a (a ++ s) = true
  | [], _ => rfl
  | c :: t, s => by simp [pfxOf, pfxOf_refl_append t s]

theorem pfxOf_cancel : ∀ x y z : List Char, pfxOf (x ++ y) (x ++ z) = pfxOf y z
  | [], _, _ => rfl
  | c :: t, y, z => by simp [pfxOf, pfxOf_cancel t y z]

theorem pfxOf_head_ne {a b : Char} (as bs : List Char) (h : (a == b) = false) :
    pfxOf (a :: as) (b :: bs) = false := by simp [pfxOf, h]

/-- A prefix occurrence is a substring occurrence. -/
theorem containsSub_of_pfxOf {n h : List Char} (hp : pfxOf n h = true) :
    containsSub n h = true := by
  cases h with
  | nil =>
    cases n with
    | nil => rfl
    | cons c t => simp [pfxOf] at hp
  | cons c t => simp [containsSub, hp]

/-- Every option contains its own key as a substring
(`opt.split('=')[0]` is a prefix of `opt`). -/
theorem substrB_keyOf_self (o : String) : substrB (keyOf o) o = true := by
  apply containsSub_of_pfxOf
  show pfxOf (o.data.takeWhile (fun c => c != '=')) o.data = true
  have h := List.takeWhile_append_dropWhile (fun c => c != '=') o.data
  calc pfxOf (o.data.takeWhile (fun c => c != '=')) o.data
      = pfxOf (o.data.takeWhile (fun c => c != '='))
          (o.data.takeWhile (fun c => c != '=') ++ o.data.dropWhile (fun c => c != '=')) := by
        rw [h]
    _ = true := pfxOf_refl_append _ _

/-! ## Facts about the additive merge loop -/

theorem mem_addOption {x : String} {acc : List String} (o : String) (h : x ∈ acc) :
    x ∈ addOption acc o := by
  unfold addOption
  split
  · exact h
  · exact List.mem_append_left _ h

theorem mem_mergeAdditive {x : String} :
    ∀ (opts : List String) {acc : List String}, x ∈ acc → x ∈ mergeAdditive acc opts
  | [], _, h => h
  | o :: rest, acc, h => mem_mergeAdditive rest (mem_addOption o h)

theorem mergeAdditive_mem_split {x : String} :
    ∀ (opts acc : List String), x ∈ mergeAdditive acc opts → x ∈ acc ∨ x ∈ opts
  | [], _, h => Or.inl h
  | o :: rest, acc, h => by
    rcases mergeAdditive_mem_split rest (addOption acc o) h with hx | hx
    · unfold addOption at hx
      split at hx
      · exact Or.inl hx
      · rcases List.mem_append.mp hx with hx | hx
        · exact Or.inl hx
        · have hxo : x = o := List.mem_singleton.mp hx
          exact Or.inr (by rw [hxo]; exact List.mem_cons_self o rest)
    · exact Or.inr (List.mem_cons_of_mem _ hx)

/-- When no accumulated token contains the key of `o`, the loop appends `o`. -/
theorem addOption_appends {acc : List String} {o : String}
    (h : ∀ t ∈ acc, substrB (keyOf o) t = false) :
    addOption acc o = acc ++ [o] := by
  unfold addOption
  have hfalse : acc.any (fun e => substrB (keyOf o) e) = false := by
    rw [List.any_eq_false]
    intro t ht
    simp [h t ht]
  simp [hfalse]

/-- If `o` occurs in the new-options list, no baseline token contains its
key, and no earlier new option contains its key, then the additive loop
keeps `o` in the working list. -/
theorem mem_mergeAdditive_self (base pre post : List String) (o : String)
    (hbase : ∀ t ∈ base, substrB (keyOf o) t = false)
    (hpre : ∀ p ∈ pre, substrB (keyOf o) p = false) :
    o ∈ mergeAdditive base (pre ++ o :: post) := by
  unfold mergeAdditive
  rw [List.foldl_append]
  have hacc : ∀ t ∈ mergeAdditive base pre, substrB (keyOf o) t = false := by
    intro t ht
    rcases mergeAdditive_mem_split pre base ht with h | h
    · exact hbase t h
    · exact hpre t h
  show o ∈ List.foldl addOption (mergeAdditive base pre) (o :: post)
  rw [List.foldl_cons, addOption_appends hacc]
  exact mem_mergeAdditive post (List.mem_append_right _ (List.mem_singleton.mpr rfl))

/-! ## Decomposition facts for `startsWithB` -/

theorem exists_append_of_pfxOf : ∀ a b : List Char, pfxOf a b = true → ∃ s, b = a ++ s
  | [], b, _ => ⟨b, rfl⟩
  | a :: as, [], h => by simp [pfxOf] at h
  | a :: as, b :: bs, h => by
    simp only [pfxOf, Bool.and_eq_true, beq_iff_eq] at h
    obtain ⟨s, hs⟩ := exists_append_of_pfxOf as bs h.2
    exact ⟨s, by rw [h.1, hs]; rfl⟩

theorem startsWithB_self_append (p s : String) : startsWithB p (p ++ s) = true := by
  unfold startsWithB
  rw [String.data_append]
  exact pfxOf_refl_append _ _

/-- Prefixes weaken: if `t` starts with `p` and `p` starts with `q`, then
`t` starts with `q`. -/
theorem startsWithB_weaken {p q t : String} (hqp : startsWithB q p = true)
    (hpt : startsWithB p t = true) : startsWithB q t = true := by
  unfold startsWithB at hqp hpt ⊢
  obtain ⟨u, hu⟩ := exists_append_of_pfxOf _ _ hqp
  obtain ⟨r, hr⟩ := exists_append_of_pfxOf _ _ hpt
  rw [hr, hu, List.append_assoc]
  exact pfxOf_refl_append _ _

/-- A `p ++ s` token never starts with `q` when `p` and `q` differ at their
first characters. -/
theorem startsWithB_append_head_ne {p q : String} {a b : Char} {as bs : List Char}
    (hq : q.data = a :: as) (hp : p.data = b :: bs) (h : (a == b) = false) (s : String) :
    startsWithB q (p ++ s) = false := by
  unfold startsWithB
  rw [String.data_append, hq, hp, List.cons_append]
  exact pfxOf_head_ne _ _ h

/-- `hugepagesz=` is not a prefix of any `hugepages=`-token
(they diverge at the character after `hugepages`). -/
theorem hpz_not_pfx_of_hp (s : String) :
    startsWithB "hugepagesz=" ("hugepages=" ++ s) = false := by
  unfold startsWithB
  rw [String.data_append]
  have h1 : ("hugepagesz=" : String).data = ("hugepages" : String).data ++ ['z', '='] := by decide
  have h2 : ("hugepages=" : String).data = ("hugepages" : String).data ++ ['='] := by decide
  rw [h1, h2, List.append_assoc, pfxOf_cancel]
  exact pfxOf_head_ne _ _ (by decide)

/-- Any `hugepages=`-token is removed by the hugepage filter. -/
theorem isHugepageTok_hp_append (s : String) : isHugepageTok ("hugepages=" ++ s) = true := by
  have h : startsWithB "hugepages" ("hugepages=" ++ s) = true :=
    @startsWithB_weaken "hugepages=" "hugepages" ("hugepages=" ++ s) (by decide)
      (startsWithB_self_append _ _)
  simp [isHugepageTok, hugepagePfxs, List.any_eq_true]
  exact Or.inr (Or.inr h)

theorem hp_append_ne_la57 (s : String) : (("hugepages=" ++ s) == "la57") = false := by
  apply beq_eq_false_iff_ne.mpr
  intro h
  have hd := congrArg String.data h
  rw [String.data_append] at hd
  have h1 : ("hugepages=" : String).data = 'h' :: ("ugepages=" : String).data := by decide
  have h2 : ("la57" : String).data = 'l' :: ("a57" : String).data := by decide
  rw [h1, h2, List.cons_append] at hd
  simp at hd

/-! ## Facts about the exclusive-key replacement -/

theorem countP_double_filter_vfio (l : List String) :
    List.countP (fun o => startsWithB "vfio-pci.ids=" o)
      ((l.filter (fun o => !startsWithB "vfio-pci.ids=" o)).filter
        (fun o => !startsWithB "modprobe.blacklist=" o)) = 0 := by
  rw [List.countP_eq_zero]
  intro a ha
  have h1 := (List.mem_filter.mp (List.mem_filter.mp ha).1).2
  simp only [Bool.not_eq_true'] at h1
  simp [h1]

theorem countP_double_filter_blacklist (l : List String) :
    List.countP (fun o => startsWithB "modprobe.blacklist=" o)
      ((l.filter (fun o => !startsWithB "vfio-pci.ids=" o)).filter
        (fun o => !startsWithB "modprobe.blacklist=" o)) = 0 := by
  rw [List.countP_eq_zero]
  intro a ha
  have h1 := (List.mem_filter.mp ha).2
  simp only [Bool.not_eq_true'] at h1
  simp [h1]

theorem blacklistTok_not_vfio : startsWithB "vfio-pci.ids=" blacklistTok = false := by decide

theorem blacklistTok_is_blacklist : startsWithB "modprobe.blacklist=" blacklistTok = true := by
  decide

theorem vfioTok_not_blacklist (s : String) :
    startsWithB "modprobe.blacklist=" ("vfio-pci.ids=" ++ s) = false :=
  @startsWithB_append_head_ne "vfio-pci.ids=" "modprobe.blacklist=" 'm' 'v'
    ("odprobe.blacklist=" : String).data ("fio-pci.ids=" : String).data
    (by decide) (by decide) (by decide) s

/-- With a nonempty id string, the exclusive step leaves exactly one
`vfio-pci.ids=` token. -/
theorem countP_applyExclusive_vfio (l : List String) (s : String) (hs : (s == "") = false) :
    List.countP (fun o => startsWithB "vfio-pci.ids=" o) (applyExclusive l s) = 1 := by
  unfold applyExclusive
  rw [List.countP_append, countP_double_filter_vfio]
  rw [if_neg (by simp [hs])]
  simp [List.countP_cons, startsWithB_self_append, blacklistTok_not_vfio]

/-- With a nonempty id string, the exclusive step leaves exactly one
`modprobe.blacklist=` token. -/
theorem countP_applyExclusive_blacklist (l : List String) (s : String) (hs : (s == "") = false) :
    List.countP (fun o => startsWithB "modprobe.blacklist=" o) (applyExclusive l s) = 1 := by
  unfold applyExclusive
  rw [List.countP_append, countP_double_filter_blacklist]
  rw [if_neg (by simp [hs])]
  simp [List.countP_cons, vfioTok_not_blacklist, blacklistTok_is_blacklist]

/-- Every `vfio-pci.ids=` token surviving the exclusive step is the freshly
computed one. -/
theorem applyExclusive_vfio_fresh {t : String} {l : List String} {s : String}
    (ht : t ∈ applyExclusive l s) (hv : startsWithB "vfio-pci.ids=" t = true) :
    t = "vfio-pci.ids=" ++ s := by
  unfold applyExclusive at ht
  rcases List.mem_append.mp ht with h | h
  · have h1 := (List.mem_filter.mp (List.mem_filter.mp h).1).2
    rw [hv] at h1
    cases h1
  · split at h
    · cases h
    · simp only [List.mem_cons, List.not_mem_nil, or_false] at h
      rcases h with h | h
      · exact h
      · rw [h] at hv
        rw [blacklistTok_not_vfio] at hv
        cases hv

/-- Every `modprobe.blacklist=` token surviving the exclusive step is the
fixed blacklist token. -/
theorem applyExclusive_blacklist_fresh {t : String} {l : List String} {s : String}
    (ht : t ∈ applyExclusive l s) (hb : startsWithB "modprobe.blacklist=" t = true) :
    t = blacklistTok := by
  unfold applyExclusive at ht
  rcases List.mem_append.mp ht with h | h
  · have h1 := (List.mem_filter.mp h).2
    rw [hb] at h1
    cases h1
  · split at h
    · cases h
    · simp only [List.mem_cons, List.not_mem_nil, or_false] at h
      rcases h with h | h
      · rw [h] at hb
        rw [vfioTok_not_blacklist] at hb
        cases hb
      · exact h

/-! ## Facts about the hugepage replacement -/

theorem pD_imp_hp {o : String} (h : startsWithB "default_hugepagesz=" o = true) :
    isHugepageTok o = true := by
  have hw := @startsWithB_weaken "default_hugepagesz=" "default_hugepagesz" o (by decide) h
  simp [isHugepageTok, hugepagePfxs, List.any_eq_true]
  exact Or.inl hw

theorem pZ_imp_hp {o : String} (h : startsWithB "hugepagesz=" o = true) :
    isHugepageTok o = true := by
  have hw := @startsWithB_weaken "hugepagesz=" "hugepagesz" o (by decide) h
  simp [isHugepageTok, hugepagePfxs, List.any_eq_true]
  exact Or.inr (Or.inl hw)

theorem pH_imp_hp {o : String} (h : startsWithB "hugepages=" o = true) :
    isHugepageTok o = true := by
  have hw := @startsWithB_weaken "hugepages=" "hugepages" o (by decide) h
  simp [isHugepageTok, hugepagePfxs, List.any_eq_true]
  exact Or.inr (Or.inr hw)

theorem mem_hp_filter_not_hp {t : String} {l : List String}
    (ht : t ∈ l.filter (fun o => !isHugepageTok o)) : isHugepageTok t = false := by
  have := (List.mem_filter.mp ht).2
  simpa using this

theorem dhz_not_pfx_hp (s : String) :
    startsWithB "default_hugepagesz=" ("hugepages=" ++ s) = false :=
  @startsWithB_append_head_ne "hugepages=" "default_hugepagesz=" 'd' 'h'
    ("efault_hugepagesz=" : String).data ("ugepages=" : String).data
    (by decide) (by decide) (by decide) s

theorem hugeR_eq_false (lin dflt : List String) (n : Nat) :
    (addHugepagesToGrubOptions lin dflt n false).2 =
      dflt.filter (fun o => !isHugepageTok o) ++ freshHugepageToks n := by
  simp [addHugepagesToGrubOptions, freshHugepageToks]

theorem fresh_filter_la57 (n : Nat) :
    (freshHugepageToks n).filter (fun o => o != "la57") = freshHugepageToks n := by
  have hh : (("hugepages=" ++ toString n) != "la57") = true := by
    show (!(("hugepages=" ++ toString n) == "la57")) = true
    rw [hp_append_ne_la57]
    rfl
  simp [freshHugepageToks, List.filter_cons, hh]

theorem hugeR_eq_true (lin dflt : List String) (n : Nat) :
    (addHugepagesToGrubOptions lin dflt n true).2 =
      ((dflt.filter (fun o => !isHugepageTok o)).filter (fun o => o != "la57") ++
        freshHugepageToks n) ++ ["la57"] := by
  have h := fresh_filter_la57 n
  simp only [freshHugepageToks] at h
  simp only [addHugepagesToGrubOptions, freshHugepageToks, if_pos]
  rw [List.filter_append, h]

theorem hugeL_eq (lin dflt : List String) (n : Nat) (flag : Bool) :
    (addHugepagesToGrubOptions lin dflt n flag).1 =
      lin.filter (fun o => !isHugepageTok o) := by
  cases flag <;> simp [addHugepagesToGrubOptions]

theorem countP_hp_filter_zero {p : String → Bool}
    (hpimp : ∀ o, p o = true → isHugepageTok o = true) (l : List String) :
    List.countP p (l.filter (fun o => !isHugepageTok o)) = 0 := by
  rw [List.countP_eq_zero]
  intro a ha hc
  have h := mem_hp_filter_not_hp ha
  rw [hpimp a hc] at h
  cases h

theorem countP_hp_filter_q_zero {p : String → Bool}
    (hpimp : ∀ o, p o = true → isHugepageTok o = true) (l : List String) :
    List.countP p
      ((l.filter (fun o => !isHugepageTok o)).filter (fun o => o != "la57")) = 0 := by
  rw [List.countP_eq_zero]
  intro a ha hc
  have h := mem_hp_filter_not_hp (List.mem_filter.mp ha).1
  rw [hpimp a hc] at h
  cases h

/-! ## Claim theorems -/

/-- C1 (amended): in the GRUB additive merge, a new atomic option is
appended if and only if no existing token contains the option's key (the
text before its first `=`) as a substring — not merely when no token starts
with `key=`; in particular the option is suppressed when its key occurs
inside an unrelated token. -/
theorem addOption_append_iff_key_not_contained (acc : List String) (opt : String) :
    (addOption acc opt = acc ++ [opt] ↔ ∀ t ∈ acc, substrB (keyOf opt) t = false) ∧
    (addOption acc opt = acc ↔ ∃ t ∈ acc, substrB (keyOf opt) t = true) := by
  constructor
  · constructor
    · intro h t ht
      by_contra hc
      have hc' : substrB (keyOf opt) t = true := by
        cases hsub : substrB (keyOf opt) t
        · exact absurd hsub hc
        · rfl
      have hany : acc.any (fun e => substrB (keyOf opt) e) = true :=
        List.any_eq_true.mpr ⟨t, ht, hc'⟩
      simp [addOption, hany] at h
    · exact addOption_appends
  · constructor
    · intro h
      by_contra hc
      push_neg at hc
      have hall : ∀ t ∈ acc, substrB (keyOf opt) t = false := by
        intro t ht
        cases hsub : substrB (keyOf opt) t
        · rfl
        · exact absurd hsub (hc t ht)
      rw [addOption_appends hall] at h
      simp at h
    · intro hex
      obtain ⟨t, ht, hp⟩ := hex
      have hany : acc.any (fun e => substrB (keyOf opt) e) = true :=
        List.any_eq_true.mpr ⟨t, ht, hp⟩
      simp [addOption, hany]

/-- C1 counterexample: with working list `[amd_iommu=on]`, the option
`iommu=pt` is not appended although no existing token starts with `iommu=`:
the bare key `iommu` occurs inside the unrelated token `amd_iommu=on`. -/
theorem addOption_suppressed_by_substring_cex :
    addOption ["amd_iommu=on"] "iommu=pt" = ["amd_iommu=on"] ∧
    startsWithB "iommu=" "amd_iommu=on" = false ∧
    substrB (keyOf "iommu=pt") "amd_iommu=on" = true := by decide

/-- C2 (amended): the exclusive-ownership keys are fully replaced —
`vfio-pci.ids=` and `modprobe.blacklist=` tokens are removed and, when the
computed id string is nonempty, exactly one fresh token per key is appended
(never a stale value); `default_hugepagesz=`/`hugepagesz=`/`hugepages=`
tokens are removed from both parameters and exactly one fresh token each is
appended to the default list; `la57` is removed-and-reappended exactly once
only when the 5-level-paging flag is true (when the flag is false existing
`la57` tokens are left in place, contrary to the original claim). -/
theorem exclusive_keys_replaced :
    (∀ (baseline : List String) (iommuType : String) (pciIds : List String),
      (String.intercalate "," pciIds == "") = false →
      List.countP (fun o => startsWithB "vfio-pci.ids=" o)
        (addVirtOptions baseline iommuType pciIds) = 1 ∧
      List.countP (fun o => startsWithB "modprobe.blacklist=" o)
        (addVirtOptions baseline iommuType pciIds) = 1 ∧
      (∀ t ∈ addVirtOptions baseline iommuType pciIds,
        startsWithB "vfio-pci.ids=" t = true →
        t = "vfio-pci.ids=" ++ String.intercalate "," pciIds) ∧
      (∀ t ∈ addVirtOptions baseline iommuType pciIds,
        startsWithB "modprobe.blacklist=" t = true → t = blacklistTok)) ∧
    (∀ (lin dflt : List String) (n : Nat) (flag : Bool),
      List.countP (fun o => startsWithB "default_hugepagesz=" o)
        (addHugepagesToGrubOptions lin dflt n flag).2 = 1 ∧
      List.countP (fun o => startsWithB "hugepagesz=" o)
        (addHugepagesToGrubOptions lin dflt n flag).2 = 1 ∧
      List.countP (fun o => startsWithB "hugepages=" o)
        (addHugepagesToGrubOptions lin dflt n flag).2 = 1 ∧
      (∀ t ∈ (addHugepagesToGrubOptions lin dflt n flag).2,
        startsWithB "hugepages=" t = true → t = "hugepages=" ++ toString n) ∧
      (flag = true →
        List.countP (fun o => o == "la57") (addHugepagesToGrubOptions lin dflt n flag).2 = 1) ∧
      List.countP isHugepageTok (addHugepagesToGrubOptions lin dflt n flag).1 = 0) := by
  constructor
  · intro baseline iommuType pciIds h
    refine ⟨countP_applyExclusive_vfio _ _ h, countP_applyExclusive_blacklist _ _ h, ?_, ?_⟩
    · intro t ht hv
      exact applyExclusive_vfio_fresh ht hv
    · intro t ht hb
      exact applyExclusive_blacklist_fresh ht hb
  · intro lin dflt n flag
    have hpD : startsWithB "default_hugepagesz=" "default_hugepagesz=1G" = true := by decide
    have hpDz : startsWithB "default_hugepagesz=" "hugepagesz=1G" = false := by decide
    have hpDh := dhz_not_pfx_hp (toString n)
    have hpZd : startsWithB "hugepagesz=" "default_hugepagesz=1G" = false := by decide
    have hpZ : startsWithB "hugepagesz=" "hugepagesz=1G" = true := by decide
    have hpZh := hpz_not_pfx_of_hp (toString n)
    have hpHd : startsWithB "hugepages=" "default_hugepagesz=1G" = false := by decide
    have hpHz : startsWithB "hugepages=" "hugepagesz=1G" = false := by decide
    have hpH := startsWithB_self_append "hugepages=" (toString n)
    cases flag
    · rw [hugeR_eq_false, hugeL_eq]
      refine ⟨?_, ?_, ?_, ?_, ?_, ?_⟩
      · rw [List.countP_append, countP_hp_filter_zero (fun o => pD_imp_hp)]
        simp [freshHugepageToks, List.countP_cons, hpD, hpDz, hpDh]
      · rw [List.countP_append, countP_hp_filter_zero (fun o => pZ_imp_hp)]
        simp [freshHugepageToks, List.countP_cons, hpZd, hpZ, hpZh]
      · rw [List.countP_append, countP_hp_filter_zero (fun o => pH_imp_hp)]
        simp [freshHugepageToks, List.countP_cons, hpHd, hpHz, hpH]
      · intro t ht hc
        rcases List.mem_append.mp ht with h | h
        · have hn := mem_hp_filter_not_hp h
          rw [pH_imp_hp hc] at hn
          cases hn
        · simp only [freshHugepageToks, List.mem_cons, List.not_mem_nil, or_false] at h
          rcases h with h | h | h
          · rw [h] at hc; rw [hpHd] at hc; cases hc
          · rw [h] at hc; rw [hpHz] at hc; cases hc
          · exact h
      · intro hf
        cases hf
      · rw [List.countP_eq_zero]
        intro a ha
        simp [mem_hp_filter_not_hp ha]
    · rw [hugeR_eq_true, hugeL_eq]
      have hlaD : startsWithB "default_hugepagesz=" "la57" = false := by decide
      have hlaZ : startsWithB "hugepagesz=" "la57" = false := by decide
      have hlaH : startsWithB "hugepages=" "la57" = false := by decide
      refine ⟨?_, ?_, ?_, ?_, ?_, ?_⟩
      · rw [List.countP_append, List.countP_append,
          countP_hp_filter_q_zero (fun o => pD_imp_hp)]
        simp [freshHugepageToks, List.countP_cons, hpD, hpDz, hpDh, hlaD]
      · rw [List.countP_append, List.countP_append,
          countP_hp_filter_q_zero (fun o => pZ_imp_hp)]
        simp [freshHugepageToks, List.countP_cons, hpZd, hpZ, hpZh, hlaZ]
      · rw [List.countP_append, List.countP_append,
          countP_hp_filter_q_zero (fun o => pH_imp_hp)]
        simp [freshHugepageToks, List.countP_cons, hpHd, hpHz, hpH, hlaH]
      · intro t ht hc
        rcases List.mem_append.mp ht with h | h
        · rcases List.mem_append.mp h with h | h
          · have hn := mem_hp_filter_not_hp (List.mem_filter.mp h).1
            rw [pH_imp_hp hc] at hn
            cases hn
          · simp only [freshHugepageToks, List.mem_cons, List.not_mem_nil, or_false] at h
            rcases h with h | h | h
            · rw [h] at hc; rw [hpHd] at hc; cases hc
            · rw [h] at hc; rw [hpHz] at hc; cases hc
            · exact h
        · simp only [List.mem_cons, List.not_mem_nil, or_false] at h
          rw [h] at hc
          rw [hlaH] at hc
          cases hc
      · intro _
        rw [List.countP_append, List.countP_append]
        have h1 : List.countP (fun o => o == "la57")
            ((dflt.filter (fun o => !isHugepageTok o)).filter (fun o => o != "la57")) = 0 := by
          rw [List.countP_eq_zero]
          intro a ha
          have hq := (List.mem_filter.mp ha).2
          simp only [bne_iff_ne, ne_eq] at hq
          simp [hq]
        have h2 : List.countP (fun o => o == "la57") (freshHugepageToks n) = 0 := by
          simp [freshHugepageToks, List.countP_cons, hp_append_ne_la57 (toString n)]
        rw [h1, h2]
        rfl
      · rw [List.countP_eq_zero]
        intro a ha
        simp [mem_hp_filter_not_hp ha]

/-- C2 witness: concrete instantiation of both conjuncts. -/
theorem exclusive_keys_replaced_witness :
    List.countP (fun o => startsWithB "vfio-pci.ids=" o)
      (addVirtOptions ["vfio-pci.ids=10de:1234"] "amd_iommu=on" ["10de:2684"]) = 1 ∧
    List.countP (fun o => startsWithB "default_hugepagesz=" o)
      (addHugepagesToGrubOptions [] ["hugepages=4"] 8 true).2 = 1 := by
  constructor
  · exact (exclusive_keys_replaced.1 ["vfio-pci.ids=10de:1234"] "amd_iommu=on" ["10de:2684"]
      (by decide)).1
  · exact (exclusive_keys_replaced.2 [] ["hugepages=4"] 8 true).1

/-- C2 counterexample: with the 5-level-paging flag false, an existing
`la57` token is retained in the default list, while the claim requires the
result to contain no `la57` token when it is omitted. -/
theorem la57_retained_when_flag_false_cex :
    (addHugepagesToGrubOptions [] ["la57"] 4 false).2 =
      ["la57", "default_hugepagesz=1G", "hugepagesz=1G", "hugepages=4"] ∧
    "la57" ∈ (addHugepagesToGrubOptions [] ["la57"] 4 false).2 := by decide

/-- C5: the baseline read accumulates the main file's tokens and then each
`.cfg` fragment's tokens in lexicographic filename order, and returns them
deduplicated (each token exactly once) and sorted; the concrete conjuncts
exhibit the pre-dedup accumulated order (tokens of `01-a.cfg` before
`02-b.cfg` despite the reversed directory listing) and the dedup of a token
duplicated across files. -/
theorem baseline_read_sorted_dedup :
    (∀ (main : Option (List String)) (frags : List Fragment) (param : String),
      List.Sorted (fun a b => strLeB a b = true) (getExistingGrubParameters main frags param) ∧
      (getExistingGrubParameters main frags param).Nodup ∧
      (∀ t, t ∈ getExistingGrubParameters main frags param ↔
        t ∈ accumulatedGrubTokens main frags param)) ∧
    accumulatedGrubTokens (some ["GRUB_CMDLINE_LINUX_DEFAULT=\"iommu=pt nomodeset\""])
      [("02-b.cfg", ["GRUB_CMDLINE_LINUX_DEFAULT=\"zeta iommu=pt\""]),
       ("01-a.cfg", ["GRUB_CMDLINE_LINUX_DEFAULT=\"iommu=pt alpha\""])]
      "GRUB_CMDLINE_LINUX_DEFAULT" =
      ["iommu=pt", "nomodeset", "iommu=pt", "alpha", "zeta", "iommu=pt"] ∧
    getExistingGrubParameters (some ["GRUB_CMDLINE_LINUX_DEFAULT=\"iommu=pt nomodeset\""])
      [("02-b.cfg", ["GRUB_CMDLINE_LINUX_DEFAULT=\"zeta iommu=pt\""]),
       ("01-a.cfg", ["GRUB_CMDLINE_LINUX_DEFAULT=\"iommu=pt alpha\""])]
      "GRUB_CMDLINE_LINUX_DEFAULT" = ["alpha", "iommu=pt", "nomodeset", "zeta"] := by
  refine ⟨?_, by decide, by decide⟩
  intro main frags param
  exact ⟨dedupSort_sorted _, dedupSort_nodup _, fun t => mem_dedupSort⟩

/-! ## Workflow engine lemmas -/

theorem runSteps_ok_pre : ∀ (pre : List StepRes), (∀ x ∈ pre, x = .ok) →
    ∀ (i : Nat) (env : Env) (rest : List WfStep),
    runSteps i env (pre.map constStep ++ rest) =
      ((runSteps (i + pre.length) env rest).1,
       List.range' i pre.length ++ (runSteps (i + pre.length) env rest).2.1,
       (runSteps (i + pre.length) env rest).2.2)
  | [], _, i, env, rest => by simp [List.range']
  | r :: pre', h, i, env, rest => by
    have hr : r = .ok := h r (List.mem_cons_self r pre')
    subst hr
    have ih := runSteps_ok_pre pre' (fun x hx => h x (List.mem_cons_of_mem _ hx))
      (i + 1) env rest
    show runSteps i env (constStep .ok :: (pre'.map constStep ++ rest)) = _
    simp only [runSteps, constStep, ih, List.length_cons]
    have harith : i + 1 + pre'.length = i + (pre'.length + 1) := by omega
    rw [harith, List.range'_succ]
    simp

theorem runSteps_fail_head (i : Nat) (env : Env) (rest : List WfStep) (b : StepRes)
    (hb : b ≠ .ok) : runSteps i env (constStep b :: rest) = (.failed i, [i], env) := by
  cases b with
  | ok => exact absurd rfl hb
  | fail => rfl
  | exc => rfl

theorem runSteps_completed_iff : ∀ (rs : List StepRes) (i : Nat) (env : Env),
    (runSteps i env (rs.map constStep)).1 = .completed ↔ ∀ x ∈ rs, x = .ok
  | [], i, env => by simp [runSteps]
  | r :: rest, i, env => by
    cases r with
    | ok =>
      have ih := runSteps_completed_iff rest (i + 1) env
      show ((runSteps i env (constStep .ok :: rest.map constStep)).1 = .completed ↔ _)
      simp only [runSteps, constStep]
      simp only [List.mem_cons]
      constructor
      · intro h x hx
        rcases hx with hx | hx
        · rw [hx]
        · exact ih.mp h x hx
      · intro h
        exact ih.mpr (fun x hx => h x (Or.inr hx))
    | fail =>
      show ((runSteps i env (constStep .fail :: rest.map constStep)).1 = .completed ↔ _)
      simp only [runSteps, constStep]
      constructor
      · intro h
        cases h
      · intro h
        have := h .fail (List.mem_cons_self _ _)
        cases this
    | exc =>
      show ((runSteps i env (constStep .exc :: rest.map constStep)).1 = .completed ↔ _)
      simp only [runSteps, constStep]
      constructor
      · intro h
        cases h
      · intro h
        have := h .exc (List.mem_cons_self _ _)
        cases this

/-- C6: workflow execution is fail-fast — with the confirmation accepted,
the first step returning `false` or raising yields the Failed outcome naming
its 1-based index, exactly the steps up to and including it are invoked
(later steps never execute), and the Completed outcome is produced exactly
when every step returns `true`. -/
theorem workflow_fail_fast :
    (∀ (pre post : List StepRes) (b : StepRes) (e : Env),
      (∀ x ∈ pre, x = .ok) → b ≠ .ok →
      wfExecute true ((pre ++ b :: post).map constStep) e =
        (.failed (pre.length + 1), List.range' 1 (pre.length + 1), [])) ∧
    (∀ (rs : List StepRes) (e : Env),
      (wfExecute true (rs.map constStep) e).1 = .completed ↔ ∀ x ∈ rs, x = .ok) := by
  constructor
  · intro pre post b e hpre hb
    show runSteps 1 [] ((pre ++ b :: post).map constStep) = _
    rw [List.map_append, List.map_cons]
    rw [runSteps_ok_pre pre hpre 1 [] (constStep b :: post.map constStep)]
    rw [runSteps_fail_head _ _ _ _ hb]
    have hr : List.range' 1 (pre.length + 1) = List.range' 1 pre.length ++ [1 + pre.length] := by
      have := @List.range'_concat 1 1 pre.length
      simpa using this
    rw [hr]
    have : 1 + pre.length = pre.length + 1 := by omega
    simp [this]
  · intro rs e
    exact runSteps_completed_iff rs 1 []

/-- C6 witness: a 3-step workflow whose second step returns `false` ends
Failed at index 2, invoking only steps 1 and 2 — step 3 never executes. -/
theorem workflow_fail_fast_witness :
    wfExecute true ([StepRes.ok, StepRes.fail, StepRes.ok].map constStep) [] =
      (.failed 2, [1, 2], []) := by
  have h := workflow_fail_fast.1 [StepRes.ok] [StepRes.ok] StepRes.fail []
    (by intro x hx; simpa using hx) (by intro h; cases h)
  simpa using h

/-- C7: declining the confirmation prompt yields Cancelled with no step
invoked; Cancelled is distinct from Completed and from every Failed outcome;
`execute_workflow` exits 0 on cancellation (and on completion) and 1 on
failure. -/
theorem workflow_cancellation_distinct :
    (∀ (steps : List WfStep) (e : Env), wfExecute false steps e = (.cancelled, [], [])) ∧
    workflowExitCode .cancelled = 0 ∧
    workflowExitCode .completed = 0 ∧
    (∀ i : Nat, WfOutcome.cancelled ≠ .failed i ∧ workflowExitCode (.failed i) = 1) ∧
    WfOutcome.cancelled ≠ .completed := by
  refine ⟨fun steps e => rfl, rfl, rfl, fun i => ⟨?_, rfl⟩, ?_⟩
  · intro h
    cases h
  · intro h
    cases h

/-- C9: `Workflow.execute` is independent of its environment argument — the
shared environment is rebound to a fresh empty dict after confirmation, so
two runs with arbitrary caller-populated environments produce identical
outcomes, step-invocation sequences and final environments, and an accepted
run equals the run started from the empty environment. -/
theorem workflow_env_independent :
    (∀ (confirm : Bool) (steps : List WfStep) (e1 e2 : Env),
      wfExecute confirm steps e1 = wfExecute confirm steps e2) ∧
    (∀ (steps : List WfStep) (e : Env), wfExecute true steps e = runSteps 1 [] steps) := by
  exact ⟨fun _ _ _ _ => rfl, fun _ _ => rfl⟩

/-- C10 (amended): a helper write failure does not fail the step — when
`create_grub_override` returns `false` (file already up to date, or the
write raised `IOError`), `update-grub` is skipped and
`CreateGrubOverrideCmd.execute` still returns `true`; `execute` returns
`false` exactly when a GRUB key is missing from the environment or when the
helper returned `true` and the subsequent `update-grub` invocation raised
(the latter case is the correction: the original claim listed only
exceptions escaping the helper). -/
theorem create_override_step_result :
    (∀ (ex : Option (List String)) (opts : List (String × String)),
      createGrubOverride ex opts false = false) ∧
    (∀ (ex : Option (List String)) (opts : List (String × String)) (w u : Bool),
      createGrubOverride ex opts w = false →
      createOverrideCmdResult true ex opts w u = (true, false)) ∧
    (∀ (lines : List String) (opts : List (String × String)) (w : Bool),
      dictEqB (parseOverrideLines lines) opts = true →
      createGrubOverride (some lines) opts w = false) ∧
    (∀ (hasKeys : Bool) (ex : Option (List String)) (opts : List (String × String)) (w u : Bool),
      (createOverrideCmdResult hasKeys ex opts w u).1 = false ↔
        hasKeys = false ∨ (createGrubOverride ex opts w = true ∧ u = false)) := by
  refine ⟨?_, ?_, ?_, ?_⟩
  · intro ex opts
    cases ex <;> simp [createGrubOverride]
  · intro ex opts w u h
    simp [createOverrideCmdResult, h]
  · intro lines opts w h
    simp [createGrubOverride, h]
  · intro hasKeys ex opts w u
    cases hasKeys
    · simp [createOverrideCmdResult]
    · cases hw : createGrubOverride ex opts w
      · simp [createOverrideCmdResult, hw]
      · cases u <;> simp [createOverrideCmdResult, hw]

/-- C10 witness: with both keys present and a failing write, the step
reports success and `update-grub` is skipped. -/
theorem create_override_step_result_witness :
    createOverrideCmdResult true (some []) [("GRUB_CMDLINE_LINUX_DEFAULT", "iommu=pt")]
      false true = (true, false) :=
  create_override_step_result.2.1 (some []) [("GRUB_CMDLINE_LINUX_DEFAULT", "iommu=pt")]
    false true
    (create_override_step_result.1 (some []) [("GRUB_CMDLINE_LINUX_DEFAULT", "iommu=pt")])

/-- C10 counterexample: keys present, the helper returned `true` normally
(no exception escaped it, the fragment was written), yet `execute` returns
`false` because `update-grub` raised — a case the original claim's "only
when" clause omits. -/
theorem create_override_update_grub_failure_cex :
    createOverrideCmdResult true (some []) [("GRUB_CMDLINE_LINUX_DEFAULT", "iommu=pt")]
      true false = (false, true) ∧
    createGrubOverride (some []) [("GRUB_CMDLINE_LINUX_DEFAULT", "iommu=pt")] true = true := by
  decide

/-! ## The merge pipeline on the standard scenario -/

set_option maxRecDepth 100000 in
/-- C3 counterexample: with the empty initial state, AMD CPU and a single
GPU id, the first run writes the merged tokens in insertion order while the
second run — whose baseline reflects the first run's written fragment —
reads them back sorted (and requotes the list-valued `GRUB_CMDLINE_LINUX`),
so the two runs' fragment contents are not byte-identical. -/
theorem merge_pipeline_first_run_not_idempotent_cex :
    (mergePipelineRun emptyGrubFs "AuthenticAMD" ["10de:2684"]).1 ≠
    (mergePipelineRun (mergePipelineRun emptyGrubFs "AuthenticAMD" ["10de:2684"]).2
      "AuthenticAMD" ["10de:2684"]).1 := by decide

set_option maxRecDepth 100000 in
/-- C3 (amended): successive merge runs are never byte-identical.  The first
two runs differ because the second reads the baseline back deduplicated and
sorted; every later pair differs as well because `GRUB_CMDLINE_LINUX`
reaches the serializer as a Python list rendered through `str()`, so its
written value is requoted on each run — `[]`, then `['[]']`, then
`["['[]']"]`.  Only the `GRUB_CMDLINE_LINUX_DEFAULT` line reaches a fixed
point at the second run. -/
theorem merge_pipeline_linux_line_mutates :
    (mergePipelineRun (mergePipelineRun emptyGrubFs "AuthenticAMD" ["10de:2684"]).2
      "AuthenticAMD" ["10de:2684"]).1 ≠
    (mergePipelineRun (mergePipelineRun (mergePipelineRun emptyGrubFs "AuthenticAMD"
      ["10de:2684"]).2 "AuthenticAMD" ["10de:2684"]).2 "AuthenticAMD" ["10de:2684"]).1 ∧
    assocGet (pipelineOverrideOpts
        (mergePipelineRun emptyGrubFs "AuthenticAMD" ["10de:2684"]).2
        "AuthenticAMD" ["10de:2684"]) "GRUB_CMDLINE_LINUX_DEFAULT" =
      assocGet (pipelineOverrideOpts
        (mergePipelineRun (mergePipelineRun emptyGrubFs "AuthenticAMD" ["10de:2684"]).2
          "AuthenticAMD" ["10de:2684"]).2
        "AuthenticAMD" ["10de:2684"]) "GRUB_CMDLINE_LINUX_DEFAULT" ∧
    assocGet (pipelineOverrideOpts emptyGrubFs "AuthenticAMD" ["10de:2684"])
      "GRUB_CMDLINE_LINUX" = some "[]" ∧
    assocGet (pipelineOverrideOpts
        (mergePipelineRun emptyGrubFs "AuthenticAMD" ["10de:2684"]).2
        "AuthenticAMD" ["10de:2684"]) "GRUB_CMDLINE_LINUX" = some "['[]']" ∧
    assocGet (pipelineOverrideOpts
        (mergePipelineRun (mergePipelineRun emptyGrubFs "AuthenticAMD" ["10de:2684"]).2
          "AuthenticAMD" ["10de:2684"]).2
        "AuthenticAMD" ["10de:2684"]) "GRUB_CMDLINE_LINUX" = some "[\"['[]']\"]" := by
  decide

/-! ## Loader theorems -/

/-- C8: the workflow-definition loader (modelled from the spec, which the
source does not implement) fails with the matching config error — without
resolving or invoking any command — when the root is not a mapping, `name`
or `commands` is missing, `commands` is not a sequence, a command entry is
neither a bare identifier string nor a mapping with a `name` field, or a
referenced identifier is unknown (the error naming that identifier); a
well-formed definition parses to the workflow with all references
resolved. -/
theorem workflow_loader_validation :
    (∀ (reg : List String) (l : List YVal), parseWorkflow reg (.yseq l) = .error .rootNotMapping) ∧
    (∀ (reg : List String) (s : String), parseWorkflow reg (.ystr s) = .error .rootNotMapping) ∧
    (∀ reg : List String, parseWorkflow reg .yother = .error .rootNotMapping) ∧
    (∀ (reg : List String) (m : List (String × YVal)),
      assocGet m "name" = none → parseWorkflow reg (.ymap m) = .error .missingName) ∧
    (∀ (reg : List String) (m : List (String × YVal)) (nm : String),
      assocGet m "name" = some (.ystr nm) → assocGet m "commands" = none →
      parseWorkflow reg (.ymap m) = .error .missingCommands) ∧
    (∀ (reg : List String) (m : List (String × YVal)) (nm s : String),
      assocGet m "name" = some (.ystr nm) → assocGet m "commands" = some (.ystr s) →
      parseWorkflow reg (.ymap m) = .error .commandsNotSequence) ∧
    (∀ (reg : List String) (l : List YVal), parseEntry reg (.yseq l) = .error .badCommandEntry) ∧
    (∀ reg : List String, parseEntry reg .yother = .error .badCommandEntry) ∧
    (∀ (reg : List String) (m : List (String × YVal)),
      assocGet m "name" = none → parseEntry reg (.ymap m) = .error .badCommandEntry) ∧
    (∀ (reg : List String) (id : String),
      reg.contains id = false → parseEntry reg (.ystr id) = .error (.unknownCommand id)) ∧
    (∀ (reg : List String) (nm id : String),
      reg.contains id = true →
      parseWorkflow reg (.ymap [("name", .ystr nm), ("commands", .yseq [.ystr id])]) =
        .ok ⟨nm, [(id, [])]⟩) := by
  refine ⟨fun _ _ => rfl, fun _ _ => rfl, fun _ => rfl, ?_, ?_, ?_, fun _ _ => rfl,
    fun _ => rfl, ?_, ?_, ?_⟩
  · intro reg m h
    simp [parseWorkflow, h]
  · intro reg m nm h1 h2
    simp [parseWorkflow, h1, h2]
  · intro reg m nm s h1 h2
    simp [parseWorkflow, h1, h2]
  · intro reg m h
    simp [parseEntry, h]
  · intro reg id h
    have h' : id ∉ reg := by simpa using h
    simp [parseEntry, h']
  · intro reg nm id h
    have h' : id ∈ reg := by simpa using h
    simp [parseWorkflow, parseEntries, parseEntry, assocGet, h']

/-- C8 witness: concrete loads — a definition missing `commands` is rejected
with the config error before any command is touched, an unknown reference is
rejected naming it, and a well-formed definition loads. -/
theorem workflow_loader_validation_witness :
    parseWorkflow ["read_grub"] (.ymap [("name", .ystr "wf")]) = .error .missingCommands ∧
    parseEntry ["read_grub"] (.ystr "bogus") = .error (.unknownCommand "bogus") ∧
    parseWorkflow ["read_grub"]
      (.ymap [("name", .ystr "wf"), ("commands", .yseq [.ystr "read_grub"])]) =
      .ok ⟨"wf", [("read_grub", [])]⟩ := by
  refine ⟨?_, ?_, ?_⟩
  · exact workflow_loader_validation.2.2.2.2.1 ["read_grub"] [("name", .ystr "wf")] "wf"
      rfl rfl
  · exact workflow_loader_validation.2.2.2.2.2.2.2.2.2.1 ["read_grub"] "bogus" rfl
  · exact workflow_loader_validation.2.2.2.2.2.2.2.2.2.2 ["read_grub"] "wf" "read_grub" rfl

/-! ## The AMD single-GPU end-to-end scenario -/

theorem mem_applyExclusive {x : String} {l : List String} (s : String) (hx : x ∈ l)
    (h1 : startsWithB "vfio-pci.ids=" x = false)
    (h2 : startsWithB "modprobe.blacklist=" x = false) : x ∈ applyExclusive l s := by
  unfold applyExclusive
  exact List.mem_append_left _
    (List.mem_filter.mpr ⟨List.mem_filter.mpr ⟨hx, by simp [h1]⟩, by simp [h2]⟩)

/-- C4 (amended): in the AMD single-GPU workflow run, the result always
contains exactly one `vfio-pci.ids=10de:2684` and exactly one
`modprobe.blacklist=...` token (never a stale one), and contains each plain
option (`iommu=pt`, `pci=realloc`, `pcie_aspm=off`, `amd_iommu=on`,
`nomodeset`, `video=efifb:off`) provided that option is already in the
baseline or no baseline token contains the option's key as a substring — not
for every baseline, contrary to the original claim; the workflow completes
and stores the space-joined merged list. -/
theorem virt_workflow_tokens (fs : GrubFs) (cpuinfo : String) (e : Env)
    (hAMD : substrB "AMD" cpuinfo = true) :
    (∀ o ∈ newOptions "amd_iommu=on" "",
      (o ∈ virtBaseline fs ∨ ∀ t ∈ virtBaseline fs, substrB (keyOf o) t = false) →
      o ∈ virtMergedAmd fs) ∧
    List.countP (fun o => startsWithB "vfio-pci.ids=" o) (virtMergedAmd fs) = 1 ∧
    (∀ t ∈ virtMergedAmd fs, startsWithB "vfio-pci.ids=" t = true →
      t = "vfio-pci.ids=10de:2684") ∧
    List.countP (fun o => startsWithB "modprobe.blacklist=" o) (virtMergedAmd fs) = 1 ∧
    (∀ t ∈ virtMergedAmd fs, startsWithB "modprobe.blacklist=" t = true → t = blacklistTok) ∧
    (wfExecute true (virtWorkflowSteps fs cpuinfo true ["10de:2684"]) e).1 = .completed ∧
    assocGet (wfExecute true (virtWorkflowSteps fs cpuinfo true ["10de:2684"]) e).2.2
      "GRUB_CMDLINE_LINUX_DEFAULT" = some (.vStr (spaceJoin (virtMergedAmd fs))) := by
  have hred : virtMergedAmd fs =
      applyExclusive
        (mergeAdditive (virtBaseline fs) (newOptions "amd_iommu=on" "10de:2684"))
        "10de:2684" := rfl
  have hfull : newOptions "amd_iommu=on" "10de:2684" =
      ["iommu=pt", "pci=realloc", "pcie_aspm=off", "amd_iommu=on", "nomodeset",
       "video=efifb:off", "vfio-pci.ids=10de:2684", blacklistTok] := rfl
  refine ⟨?_, ?_, ?_, ?_, ?_, ?_, ?_⟩
  · intro o ho hcase
    have hlist : newOptions "amd_iommu=on" "" =
        ["iommu=pt", "pci=realloc", "pcie_aspm=off", "amd_iommu=on", "nomodeset",
         "video=efifb:off"] := rfl
    rw [hlist] at ho
    rw [hred]
    simp only [List.mem_cons, List.not_mem_nil, or_false] at ho
    rcases ho with rfl | rfl | rfl | rfl | rfl | rfl
    · rcases hcase with hmem | hkeys
      · exact mem_applyExclusive _ (mem_mergeAdditive _ hmem) (by decide) (by decide)
      · refine mem_applyExclusive _ ?_ (by decide) (by decide)
        rw [hfull]
        exact mem_mergeAdditive_self _ []
          ["pci=realloc", "pcie_aspm=off", "amd_iommu=on", "nomodeset", "video=efifb:off",
           "vfio-pci.ids=10de:2684", blacklistTok] _ hkeys (by decide)
    · rcases hcase with hmem | hkeys
      · exact mem_applyExclusive _ (mem_mergeAdditive _ hmem) (by decide) (by decide)
      · refine mem_applyExclusive _ ?_ (by decide) (by decide)
        rw [hfull]
        exact mem_mergeAdditive_self _ ["iommu=pt"]
          ["pcie_aspm=off", "amd_iommu=on", "nomodeset", "video=efifb:off",
           "vfio-pci.ids=10de:2684", blacklistTok] _ hkeys (by decide)
    · rcases hcase with hmem | hkeys
      · exact mem_applyExclusive _ (mem_mergeAdditive _ hmem) (by decide) (by decide)
      · refine mem_applyExclusive _ ?_ (by decide) (by decide)
        rw [hfull]
        exact mem_mergeAdditive_self _ ["iommu=pt", "pci=realloc"]
          ["amd_iommu=on", "nomodeset", "video=efifb:off", "vfio-pci.ids=10de:2684",
           blacklistTok] _ hkeys (by decide)
    · rcases hcase with hmem | hkeys
      · exact mem_applyExclusive _ (mem_mergeAdditive _ hmem) (by decide) (by decide)
      · refine mem_applyExclusive _ ?_ (by decide) (by decide)
        rw [hfull]
        exact mem_mergeAdditive_self _ ["iommu=pt", "pci=realloc", "pcie_aspm=off"]
          ["nomodeset", "video=efifb:off", "vfio-pci.ids=10de:2684", blacklistTok] _
          hkeys (by decide)
    · rcases hcase with hmem | hkeys
      · exact mem_applyExclusive _ (mem_mergeAdditive _ hmem) (by decide) (by decide)
      · refine mem_applyExclusive _ ?_ (by decide) (by decide)
        rw [hfull]
        exact mem_mergeAdditive_self _
          ["iommu=pt", "pci=realloc", "pcie_aspm=off", "amd_iommu=on"]
          ["video=efifb:off", "vfio-pci.ids=10de:2684", blacklistTok] _ hkeys (by decide)
    · rcases hcase with hmem | hkeys
      · exact mem_applyExclusive _ (mem_mergeAdditive _ hmem) (by decide) (by decide)
      · refine mem_applyExclusive _ ?_ (by decide) (by decide)
        rw [hfull]
        exact mem_mergeAdditive_self _
          ["iommu=pt", "pci=realloc", "pcie_aspm=off", "amd_iommu=on", "nomodeset"]
          ["vfio-pci.ids=10de:2684", blacklistTok] _ hkeys (by decide)
  · rw [hred]
    exact countP_applyExclusive_vfio _ _ (by decide)
  · intro t ht hv
    rw [hred] at ht
    exact (applyExclusive_vfio_fresh ht hv).trans rfl
  · rw [hred]
    exact countP_applyExclusive_blacklist _ _ (by decide)
  · intro t ht hb
    rw [hred] at ht
    exact applyExclusive_blacklist_fresh ht hb
  · have hio : iommuTypeFor cpuinfo = "amd_iommu=on" := by simp [iommuTypeFor, hAMD]
    simp [wfExecute, virtWorkflowSteps, runSteps, readGrubStep, getIommuTypeStep,
      getGpuPciIdsStep, addVirtStep, assocSet, assocGet, hio, tokensOfEnvVal,
      virtMergedAmd, virtBaseline]
  · have hio : iommuTypeFor cpuinfo = "amd_iommu=on" := by simp [iommuTypeFor, hAMD]
    have hdedup : dedupSort ["10de:2684"] = ["10de:2684"] := by decide
    simp [wfExecute, virtWorkflowSteps, runSteps, readGrubStep, getIommuTypeStep,
      getGpuPciIdsStep, addVirtStep, assocSet, assocGet, hio, hdedup, tokensOfEnvVal,
      virtMergedAmd, virtBaseline]

/-- C4 witness: the empty initial state satisfies the baseline hypotheses,
so the merged value contains all six plain options and the two
exclusive-key tokens. -/
theorem virt_workflow_tokens_witness :
    "iommu=pt" ∈ virtMergedAmd emptyGrubFs ∧
    List.countP (fun o => startsWithB "vfio-pci.ids=" o) (virtMergedAmd emptyGrubFs) = 1 ∧
    (wfExecute true (virtWorkflowSteps emptyGrubFs "AuthenticAMD" true ["10de:2684"]) []).1 =
      .completed := by
  have h := virt_workflow_tokens emptyGrubFs "AuthenticAMD" [] (by decide)
  exact ⟨h.1 "iommu=pt" (by decide) (Or.inr (by decide)), h.2.1, h.2.2.2.2.2.1⟩

/-- C4 counterexample: with a pre-existing baseline token `amd_iommu=on`,
the merged result does not contain `iommu=pt` — its key `iommu` occurs
inside `amd_iommu=on` — so the claimed token set is not produced regardless
of the baseline. -/
theorem virt_workflow_missing_iommu_pt_cex :
    "iommu=pt" ∉
      addVirtOptions ["amd_iommu=on"] "amd_iommu=on" ["10de:2684"] ∧
    virtBaseline ⟨some ["GRUB_CMDLINE_LINUX_DEFAULT=\"amd_iommu=on\""], []⟩ =
      ["amd_iommu=on"] := by decide

